import Mathlib

/-!
Shallow embedding of `strephit/extraction/extract_sentences.py`.

The external collaborators (sentence splitter, POS tagger, constituency
parser, regexp chunker, `random.choice`) are passed in as function
parameters; the extraction logic itself is translated line by line from
the source.  Python dicts are modelled as association lists in which the
last binding for a key wins, Python truthiness of strings/lists is made
explicit, and exceptions are modelled with `Except`.
-/

deriving instance DecidableEq for Except

/-- Python `str.lower` on one character (the corpora are ASCII;
lowercasing maps the letters A-Z to a-z and fixes everything else). -/
def pyLowerChar (c : Char) : Char :=
  if 65 ≤ c.toNat ∧ c.toNat ≤ 90 then Char.ofNat (c.toNat + 32) else c

/-- Python `str.lower`. -/
def pyLower (s : String) : String := ⟨s.data.map pyLowerChar⟩

/-- Python `str.startswith`. -/
def startswith (pre s : String) : Bool := pre.data.isPrefixOf s.data

/-- A POS-tagged token, the `(token, pos, lemma)` triple produced by
`TTPosTagger.tag_one`. -/
abbrev TaggedToken := String × String × String

/-- The `tagged` payload stored in an extracted-sentence dict: absent
(syntactic strategy), a list of `(token, pos, lemma)` triples (121 and n2n
strategies) or a list of `(token, pos)` pairs (grammar strategy). -/
inductive TagInfo where
  | noTag : TagInfo
  | triples : List TaggedToken → TagInfo
  | pairs : List (String × String) → TagInfo
deriving DecidableEq

/-- The document field of a corpus item: a string or a list of strings. -/
inductive Doc where
  | str : String → Doc
  | list : List String → Doc
deriving DecidableEq

/-- Python truthiness of a document value: the empty string and the empty
list are falsy. -/
def Doc.truthy : Doc → Bool
  | .str s => s ≠ ""
  | .list l => !l.isEmpty

/-- The branch shared by the 121, n2n and grammar strategies:
if the document is a list, the newline-join of the paragraphs, otherwise
the string itself. -/
def Doc.joined : Doc → String
  | .str s => s
  | .list l => String.intercalate "\n" l

/-- A corpus item, with the fields the extractors read.  `none` models a
missing key (`item.get` returning `None`). -/
structure Item where
  name : Option String
  url : Option String
  document : Option Doc
deriving DecidableEq

/-- Python truthiness of `item.get(key)` for a string-valued field:
`None` and the empty string are falsy; a truthy value is returned. -/
def truthyStr : Option String → Option String
  | some s => if s = "" then none else some s
  | none => none

/-- The lemma-to-tokens mapping, a dict from lemma to list of match
tokens, modelled as an association list. -/
abbrev LemmaMap := List (String × List String)

/-- Lookup in a Python dict built by repeated assignment: the LAST
assignment to a key wins. -/
def dictGet (d : List (String × String)) (k : String) : Option String :=
  (d.reverse.find? (fun p => p.1 == k)).map (·.2)

/-- `SentenceExtractor._filter_base_form`: remove the lemma itself from
its token list (`list.remove` deletes the first occurrence, and is only
invoked when the lemma is present). -/
def filter_base_form (lemma_to_token : LemmaMap) : LemmaMap :=
  lemma_to_token.map (fun p => (p.1, p.2.erase p.1))

/-- An extracted-sentence dict as built by an `extract_from_item` body,
before the driving template adds `id` and `name` and overwrites `url`. -/
structure ExtractedSentence where
  lu : String
  text : String
  tagged : TagInfo
  url : String
deriving DecidableEq

/-- A record as yielded by `SentenceExtractor.extract`: the extracted
sentence plus the assigned incremental `id` and the originating item's
`name` and `url`. -/
structure OutputRecord where
  id : Nat
  name : String
  url : String
  lu : String
  text : String
  tagged : TagInfo
deriving DecidableEq

/-- The result of `extract_from_item` on one item: an uncaught exception
(`Except.error`), no result (`None` in Python), or the pair of the item
and its extracted sentences. -/
abbrev ItemResult := Except String (Option (Item × List ExtractedSentence))

/-- Modelled from the spec: `strephit.commons.parallel.map` is not under
`src/`; with zero worker processes it applies the per-item function
sequentially, in the calling context and in input order (spec section 5).
Items for which the function produces no result are skipped; that skip is
performed in the loop embedding `extractLoop` below. -/
def parallelMap0 (f : Item → ItemResult) (corpus : List Item) : List ItemResult :=
  corpus.map f

/-- The inner for-loop of `SentenceExtractor.extract`: assign consecutive
ids starting at `count` and copy the item's `name` and `url` onto each
extracted sentence. -/
def emitFromItem (count : Nat) (nm u : String) :
    List ExtractedSentence → List OutputRecord
  | [] => []
  | e :: es => ⟨count, nm, u, e.lu, e.text, e.tagged⟩ :: emitFromItem (count + 1) nm u es

/-- The consuming loop of `SentenceExtractor.extract`: skip results of
items that produced nothing, skip items without a truthy name or url,
number the remaining sentences with an incremental counter, and stop with
the exception if processing an item raised one (records yielded before the
exception have already been consumed by the caller). -/
def extractLoop : Nat → List ItemResult → List OutputRecord × Option String
  | _, [] => ([], none)
  | _, .error e :: _ => ([], some e)
  | count, .ok none :: rest => extractLoop count rest
  | count, .ok (some (item, extracted)) :: rest =>
    match truthyStr item.name, truthyStr item.url with
    | some nm, some u =>
      let r := extractLoop (count + extracted.length) rest
      (emitFromItem count nm u extracted ++ r.1, r.2)
    | _, _ => extractLoop count rest

/-- `SentenceExtractor.extract` with `processes=0`: the records yielded by
the generator, and the exception that ended it early, if any. -/
def SentenceExtractor_extract (f : Item → ItemResult) (corpus : List Item) :
    List OutputRecord × Option String :=
  extractLoop 0 (parallelMap0 f corpus)

/-- Control-flow events of one run of `SentenceExtractor.extract`. -/
inductive RunEvent where
  | setupExtractor
  | itemProcessed
  | exceptionRaised
  | teardownExtractor
deriving DecidableEq

/-- Events produced by the `for` loop in the `try` block: one per consumed
item result, cut short by the first uncaught exception. -/
def loopEvents : List ItemResult → List RunEvent
  | [] => []
  | .error _ :: _ => [.exceptionRaised]
  | .ok _ :: rest => .itemProcessed :: loopEvents rest

/-- The control flow of `SentenceExtractor.extract`: `setup_extractor()`
runs before the `try` block; the loop body runs inside it; the `finally`
clause runs `teardown_extractor()` on both normal and exceptional exit of
the block.  If setup itself raises, the `try` block is never entered. -/
def extractEvents (setup : Except String Unit) (results : List ItemResult) :
    List RunEvent :=
  match setup with
  | .error _ => [.setupExtractor]
  | .ok _ => .setupExtractor :: (loopEvents results ++ [.teardownExtractor])

/-- The tokens of a tagged sentence whose POS tag starts with `V`,
in their original letter case. -/
def sentenceVerbsRaw (tagged : List TaggedToken) : List String :=
  (tagged.filter (fun t => startswith "V" t.2.1)).map (·.1)

namespace ManyToManyExtractor

/-- The body of the per-sentence double loop of
`ManyToManyExtractor.extract_from_item`: for every `(lemma, match_tokens)`
entry and every match token whose lowercase form is among the sentence's
lowercased verb tokens, append one record. -/
def sentenceRecords (lemma_to_token : LemmaMap) (url sentence : String)
    (tagged : List TaggedToken) : List ExtractedSentence :=
  let sentence_verbs := (sentenceVerbsRaw tagged).map pyLower
  lemma_to_token.flatMap (fun p =>
    p.2.filterMap (fun m =>
      if pyLower m ∈ sentence_verbs then
        some ⟨p.1, sentence, .triples tagged, url⟩
      else none))

/-- `ManyToManyExtractor.extract_from_item`. -/
def extract_from_item (split : String → List String)
    (tag : String → List TaggedToken) (lemma_to_token : LemmaMap)
    (item : Item) : Option (Item × List ExtractedSentence) :=
  match item.document, truthyStr item.url with
  | some d, some url =>
    if d.truthy then
      let text := d.joined
      let extracted := (split text).flatMap
        (fun s => sentenceRecords lemma_to_token url s (tag s))
      if extracted.isEmpty then none else some (item, extracted)
    else none
  | _, _ => none

end ManyToManyExtractor

namespace OneToOneExtractor

/-- `OneToOneExtractor.setup_extractor`: the set of all match tokens,
lowercased. -/
def all_verb_tokens (lemma_to_token : LemmaMap) : List String :=
  (lemma_to_token.flatMap (fun p => p.2.map pyLower)).dedup

/-- `OneToOneExtractor.setup_extractor`: the dict from lowercased match
token to its lemma (a later entry overwrites an earlier one). -/
def token_to_lemma (lemma_to_token : LemmaMap) : List (String × String) :=
  lemma_to_token.flatMap (fun p => p.2.map (fun m => (pyLower m, p.1)))

/-- The per-sentence body of `OneToOneExtractor.extract_from_item`:
collect the match tokens occurring (case-sensitively) among the sentence's
verb tokens; if any matched, pick one with `random.choice` and emit a
single record for its lemma. -/
def sentenceRecords (choice : List String → String) (avt : List String)
    (ttl : List (String × String)) (url sentence : String)
    (tagged : List TaggedToken) : List ExtractedSentence :=
  let sentence_verbs := sentenceVerbsRaw tagged
  let matched := avt.filter (fun t => t ∈ sentence_verbs)
  if matched.isEmpty then []
  else
    let assigned_token := choice matched
    let assigned_lu := (dictGet ttl assigned_token).getD ""
    [⟨assigned_lu, sentence, .triples tagged, url⟩]

/-- `OneToOneExtractor.extract_from_item`. -/
def extract_from_item (split : String → List String)
    (tag : String → List TaggedToken) (choice : List String → String)
    (lemma_to_token : LemmaMap) (item : Item) :
    Option (Item × List ExtractedSentence) :=
  match truthyStr item.url with
  | none => none
  | some url =>
    match item.document with
    | none => none
    | some d =>
      if d.truthy then
        let document := d.joined
        let extracted := (split document).flatMap
          (fun s => sentenceRecords choice (all_verb_tokens lemma_to_token)
            (token_to_lemma lemma_to_token) url s (tag s))
        if extracted.isEmpty then none else some (item, extracted)
      else none

end OneToOneExtractor

/-- An NLTK parse tree: an inner node carries a label and children, which
are trees or bare strings (the leaves). -/
inductive PTree where
  | leaf : String → PTree
  | node : String → List PTree → PTree

namespace SyntacticExtractor

mutual

/-- `SyntacticExtractor.find_sub_sentences`: the lowest nodes labelled `S`
in the parse tree, collected bottom-up; an `S` node stands for itself only
when no `S` node was found below it.  A bare string is not a `Tree`. -/
def find_sub_sentences : PTree → List PTree
  | .leaf _ => []
  | .node lb ch =>
    let s := find_sub_sentences_list ch
    if lb = "S" then (if s.isEmpty then [PTree.node lb ch] else s) else s

/-- The `reduce`/`map` accumulation over the children in
`find_sub_sentences`. -/
def find_sub_sentences_list : List PTree → List PTree
  | [] => []
  | t :: ts => find_sub_sentences t ++ find_sub_sentences_list ts

end

mutual

/-- `SyntacticExtractor.find_terminals`: the `(label, token)` pairs of the
terminals of the tree whose label starts with the given one (all
terminals when no label is given).  A terminal is a node with exactly one
child that is a bare string. -/
def find_terminals (lb : Option String) : PTree → List (String × String)
  | .leaf _ => []
  | .node l ch =>
    match ch with
    | [PTree.leaf s] =>
      match lb with
      | none => [(l, s)]
      | some pre => if startswith pre l then [(l, s)] else []
    | _ => find_terminals_list lb ch

/-- The recursion over the children in `find_terminals`. -/
def find_terminals_list (lb : Option String) : List PTree → List (String × String)
  | [] => []
  | t :: ts => find_terminals lb t ++ find_terminals_list lb ts

end

/-- `SyntacticExtractor.setup_extractor`: the dict from match token (NOT
lowercased here) to its lemma. -/
def token_to_lemma (lemma_to_token : LemmaMap) : List (String × String) :=
  lemma_to_token.flatMap (fun p => p.2.map (fun t => (t, p.1)))

/-- `SyntacticExtractor.setup_extractor`: `set(token_to_lemma.keys())`. -/
def all_verbs (lemma_to_token : LemmaMap) : List String :=
  ((token_to_lemma lemma_to_token).map (·.1)).dedup

/-- The per-sub-sentence body of `SyntacticExtractor.extract_from_item`:
join all terminals into the text, collect the set of verb-tagged
terminals, intersect it with the known match tokens, and emit one record
exactly when the intersection has exactly one element (zero matches are
skipped, two or more are discarded). -/
def subRecords (av : List String) (ttl : List (String × String))
    (url : String) (sub : PTree) : List ExtractedSentence :=
  let text := String.intercalate " " ((find_terminals none sub).map (·.2))
  let verbs := ((find_terminals (some "V") sub).map (·.2)).dedup
  let found := verbs.filter (fun v => v ∈ av)
  match found with
  | [v] => [⟨(dictGet ttl v).getD "", text, .noTag, url⟩]
  | _ => []

/-- `item.get(self.document_key, '').lower()`: Python strings have a
`lower` method, lists do not, so a list-valued document raises an
`AttributeError` (uncaught: the surrounding `try` blocks start later). -/
def docLower : Option Doc → Except String String
  | none => .ok ""
  | some (.str s) => .ok (pyLower s)
  | some (.list _) => .error "AttributeError: list object has no attribute lower"

/-- `SyntacticExtractor.extract_from_item`.  The parser (behind
`raw_parse_sents` plus the `root.next()` calls) is a parameter returning
the first parse tree of each sentence, or a caught `OSError` /
`UnicodeDecodeError`, on which the whole item is skipped. -/
def extract_from_item (split : String → List String)
    (parse : List String → Except Unit (List PTree))
    (lemma_to_token : LemmaMap) (item : Item) : ItemResult := do
  let bio ← docLower item.document
  match truthyStr item.url with
  | none => return none
  | some url =>
    if bio = "" then return none
    else
      match parse (split bio) with
      | .error _ => return none
      | .ok roots =>
        let extracted := roots.flatMap (fun root =>
          (find_sub_sentences root).flatMap
            (subRecords (all_verbs lemma_to_token) (token_to_lemma lemma_to_token) url))
        if extracted.isEmpty then return none else return some (item, extracted)

end SyntacticExtractor

namespace GrammarExtractor

/-- The English chunking grammar. -/
def grammar_en : String := "
                NOPH: \x7b<PDT>?<DT|PP.*|>?<CD>?<JJ.*|VVN>*<N.+|FW>+<CC>?\x7d
                CHUNK: \x7b<NOPH>+<MD>?<V.+>+<IN|TO>?<NOPH>+\x7d
               "

/-- The Italian chunking grammar. -/
def grammar_it : String := "
                SN: \x7b<PRO.*|DET.*|>?<ADJ>*<NUM>?<NOM|NPR>+<NUM>?<ADJ|VER:pper>*\x7d
                CHUNK: \x7b<SN><VER.*>+<SN>\x7d
               "

/-- `GrammarExtractor.grammars`: the fixed per-language grammar table. -/
def grammars : List (String × String) :=
  [("en", grammar_en), ("it", grammar_it)]

/-- `GrammarExtractor.setup_extractor`, grammar part: look the language up
in the table; a missing (or falsy) grammar raises a `ValueError` before
any item is processed. -/
def setup_grammar (language : String) : Except String String :=
  match dictGet grammars language with
  | some g =>
    if g ≠ "" then .ok g
    else .error ("Invalid or unsupported language: " ++ language)
  | none => .error ("Invalid or unsupported language: " ++ language)

/-- `GrammarExtractor.setup_extractor`, token part: lowercase every match
token (`self.lemma_to_token[lemma] = set([match.lower() ...])`). -/
def lowered (lemma_to_token : LemmaMap) : LemmaMap :=
  lemma_to_token.map (fun p => (p.1, (p.2.map pyLower).dedup))

/-- The per-sentence body of `GrammarExtractor.extract_from_item`: chunk
the `(token, pos)` pairs with the grammar (the `RegexpParser` is the
`chunker` parameter, returning the leaves of each `CHUNK` subtree); for
every verb-tagged leaf of a chunk and every lemma whose token set contains
the lowercased leaf, emit one record whose text joins the chunk's
tokens. -/
def sentenceRecords (chunker : List (String × String) → List (List (String × String)))
    (ltt : LemmaMap) (url _sentence : String) (tagged : List (String × String)) :
    List ExtractedSentence :=
  (chunker tagged).flatMap (fun grammar_match =>
    grammar_match.flatMap (fun tp =>
      if startswith "V" tp.2 then
        ltt.filterMap (fun p =>
          if pyLower tp.1 ∈ p.2 then
            some ⟨p.1, String.intercalate " " (grammar_match.map (·.1)), .pairs tagged, url⟩
          else none)
      else []))

/-- `GrammarExtractor.extract_from_item`.  On success the document field
is popped from the item. -/
def extract_from_item (split : String → List String)
    (tag : String → List TaggedToken)
    (chunker : List (String × String) → List (List (String × String)))
    (lemma_to_token : LemmaMap) (item : Item) :
    Option (Item × List ExtractedSentence) :=
  match truthyStr item.url with
  | none => none
  | some url =>
    match item.document with
    | none => none
    | some d =>
      if d.truthy then
        let document := d.joined
        let extracted := (split document).flatMap (fun s =>
          sentenceRecords chunker (lowered lemma_to_token) url s
            ((tag s).map (fun t => (t.1, t.2.1))))
        if extracted.isEmpty then none
        else some ({ item with document := none }, extracted)
      else none

end GrammarExtractor

/-- The collaborator functions handed to the extractors: the sentence
splitter, the POS tagger, `random.choice`, the constituency parser and the
grammar chunker (all external to this repository). -/
structure Collaborators where
  split : String → List String
  tag : String → List TaggedToken
  choice : List String → String
  parse : List String → Except Unit (List PTree)
  chunker : List (String × String) → List (List (String × String))

/-- `extract_sentences`: dispatch on the strategy name, instantiate the
corresponding extractor (whose `__init__` applies `_filter_base_form` when
`match_base_form` is off) and run its `extract`; an unrecognized name
raises a `ValueError` before any item is processed.  For the grammar
strategy, `setup_extractor` itself can raise on an unsupported language,
again before any item is processed. -/
def extract_sentences (c : Collaborators) (language : String)
    (lemma_to_tokens : LemmaMap) (strategy : String) (match_base_form : Bool)
    (corpus : List Item) :
    Except String (List OutputRecord × Option String) :=
  let ltt := if match_base_form then lemma_to_tokens else filter_base_form lemma_to_tokens
  if strategy = "n2n" then
    .ok (SentenceExtractor_extract
      (fun it => .ok (ManyToManyExtractor.extract_from_item c.split c.tag ltt it)) corpus)
  else if strategy = "121" then
    .ok (SentenceExtractor_extract
      (fun it => .ok (OneToOneExtractor.extract_from_item c.split c.tag c.choice ltt it)) corpus)
  else if strategy = "grammar" then
    match GrammarExtractor.setup_grammar language with
    | .error e => .ok ([], some e)
    | .ok _ =>
      .ok (SentenceExtractor_extract
        (fun it => .ok (GrammarExtractor.extract_from_item c.split c.tag c.chunker ltt it)) corpus)
  else if strategy = "syntactic" then
    .ok (SentenceExtractor_extract
      (SyntacticExtractor.extract_from_item c.split c.parse ltt) corpus)
  else
    .error "Malformed or unsupported extraction strategy: please use one of 121, n2n, grammar, or syntactic"

/-! ### Helper lemmas -/

theorem length_emitFromItem (nm u : String) :
    ∀ (c : Nat) (es : List ExtractedSentence), (emitFromItem c nm u es).length = es.length
  | _, [] => rfl
  | c, _ :: es => by simp [emitFromItem, length_emitFromItem nm u (c + 1) es]

theorem emitFromItem_ids (nm u : String) :
    ∀ (c : Nat) (es : List ExtractedSentence),
      (emitFromItem c nm u es).map (·.id) = List.range' c es.length
  | _, [] => rfl
  | c, e :: es => by
    simp [emitFromItem, List.range'_succ, emitFromItem_ids nm u (c + 1) es]

theorem extractLoop_ids (rs : List ItemResult) : ∀ c : Nat,
    ((extractLoop c rs).1).map (·.id) = List.range' c ((extractLoop c rs).1).length := by
  induction rs with
  | nil => intro c; rfl
  | cons hd rest ih =>
    intro c
    match hd with
    | .error e => rfl
    | .ok none => simpa [extractLoop] using ih c
    | .ok (some (item, ext)) =>
      rcases hn : truthyStr item.name with _ | nm
      · simpa [extractLoop, hn] using ih c
      · rcases hu : truthyStr item.url with _ | u
        · simpa [extractLoop, hn, hu] using ih c
        · simp only [extractLoop, hn, hu]
          rw [List.map_append, emitFromItem_ids, ih (c + ext.length),
            List.length_append, length_emitFromItem, List.range'_append_1,
            Nat.add_comm]

/-- C5: in a single-threaded run the ids assigned by
`SentenceExtractor.extract` to the yielded records are unique and strictly
increasing over the output sequence. -/
theorem extract_ids_strictly_increasing (f : Item → ItemResult) (corpus : List Item) :
    List.Pairwise (· < ·) (((SentenceExtractor_extract f corpus).1).map (·.id)) ∧
    (((SentenceExtractor_extract f corpus).1).map (·.id)).Nodup := by
  unfold SentenceExtractor_extract
  rw [extractLoop_ids]
  exact ⟨List.pairwise_lt_range' _ _, List.nodup_range' _ _⟩

theorem loopEvents_no_teardown : ∀ rs : List ItemResult,
    (loopEvents rs).count RunEvent.teardownExtractor = 0
  | [] => rfl
  | .error _ :: _ => rfl
  | .ok r :: rest => by
    simp [loopEvents, List.count_cons, loopEvents_no_teardown rest]

/-- C7: when setup succeeds, the teardown hook runs exactly once, as the
last step of the pass, whether or not extraction of some item raised an
exception mid-pass. -/
theorem teardown_exactly_once (results : List ItemResult) :
    ((extractEvents (.ok ()) results).count RunEvent.teardownExtractor = 1) ∧
    (extractEvents (.ok ()) results).getLast? = some RunEvent.teardownExtractor := by
  constructor
  · simp [extractEvents, List.count_cons, List.count_append,
      loopEvents_no_teardown]
  · show (RunEvent.setupExtractor :: (loopEvents results ++ [RunEvent.teardownExtractor])).getLast?
      = some RunEvent.teardownExtractor
    rw [← List.cons_append, List.getLast?_concat]

/-- C4: the syntactic strategy emits exactly one record for a
sub-sentence whose verb-tagged terminals intersect the known match-token
set in exactly one token, and zero records when the intersection has zero
or at least two tokens. -/
theorem syntactic_subsentence_records (av : List String)
    (ttl : List (String × String)) (url : String) (sub : PTree) :
    (SyntacticExtractor.subRecords av ttl url sub).length =
      (if ((((SyntacticExtractor.find_terminals (some "V") sub).map (·.2)).dedup).filter
            (fun v => v ∈ av)).length = 1 then 1 else 0) := by
  rcases h : (((SyntacticExtractor.find_terminals (some "V") sub).map (·.2)).dedup).filter
      (fun v => v ∈ av) with _ | ⟨v, _ | ⟨w, tl⟩⟩ <;>
    simp [SyntacticExtractor.subRecords, h]


/-! ### Concrete fixtures standing for the external collaborators -/

/-- A splitter for the two-sentence document used below. -/
def fixSplit : String → List String := fun s =>
  if s = "She was born.\nShe died." then ["She was born.", "She died."] else [s]

/-- A tagger assigning fixed taggings to the sentences used below. -/
def fixTag : String → List TaggedToken := fun s =>
  if s = "died dies" then [("died", "VVD", "die"), ("dies", "VVZ", "die")]
  else if s = "She died." then [("She", "PP", "she"), ("died", "VVD", "die")]
  else if s = "Died here." then [("Died", "VVD", "die")]
  else []

/-- A deterministic stand-in for `random.choice`: the head of the list. -/
def fixChoice : List String → String := fun l => l.headD ""

/-- A parser producing no trees. -/
def fixParse : List String → Except Unit (List PTree) := fun _ => .ok []

/-- A chunker treating each whole tagged sentence as one CHUNK. -/
def fixChunker : List (String × String) → List (List (String × String)) :=
  fun t => [t]

/-- A one-entry lemma-to-tokens mapping. -/
def fixLtt : LemmaMap := [("die", ["died"])]

/-- A corpus item whose document is a list of paragraphs. -/
def itemL : Item := ⟨some "X", some "http://u", some (.list ["She was born.", "She died."])⟩

/-- The same corpus item with the newline-joined document string. -/
def itemS : Item := ⟨some "X", some "http://u", some (.str "She was born.\nShe died.")⟩

/-! ### Many-to-many record counts (C1) -/

/-- Formalisation of the spec sentence for the many-to-many strategy (the
spec side of the claim, for comparison with the code): the distinct lemmas
of the mapping having at least one token among the sentence's lowercased
verb tokens. -/
def spec_matchingLemmas (lemma_to_token : LemmaMap) (tagged : List TaggedToken) :
    List String :=
  let sentence_verbs := (sentenceVerbsRaw tagged).map pyLower
  ((lemma_to_token.filter (fun p => p.2.any (fun m => pyLower m ∈ sentence_verbs))).map
    (·.1)).dedup

theorem length_filterMap_ifRecord (c : String → Prop) [DecidablePred c]
    (r : ExtractedSentence) (l : List String) :
    (l.filterMap (fun m => if c m then some r else none)).length =
      (l.filter (fun m => decide (c m))).length := by
  induction l with
  | nil => rfl
  | cons a tl ih => by_cases h : c a <;> simp [h, ih]

theorem n2n_count_aux (sv : List String) (url sentence : String)
    (tagged : List TaggedToken) :
    ∀ ltt : LemmaMap, (ltt.map (·.1)).Nodup →
      (∀ p ∈ ltt, (p.2.filter (fun m => pyLower m ∈ sv)).length ≤ 1) →
      (ltt.flatMap (fun p => p.2.filterMap (fun m =>
          if pyLower m ∈ sv then
            some (⟨p.1, sentence, .triples tagged, url⟩ : ExtractedSentence)
          else none))).length =
        (((ltt.filter (fun p => p.2.any (fun m => pyLower m ∈ sv))).map (·.1)).dedup).length := by
  intro ltt
  induction ltt with
  | nil => intro _ _; rfl
  | cons p tl ih =>
    intro hnd h1
    have hnd2 : (p.1 :: tl.map (·.1)).Nodup := by simpa using hnd
    have hnd' : (tl.map (·.1)).Nodup := (List.nodup_cons.1 hnd2).2
    have h1' : ∀ q ∈ tl, (q.2.filter (fun m => pyLower m ∈ sv)).length ≤ 1 :=
      fun q hq => h1 q (List.mem_cons_of_mem p hq)
    have ihr := ih hnd' h1'
    rw [List.flatMap_cons, List.length_append, length_filterMap_ifRecord,
      List.filter_cons]
    by_cases hq : (p.2.any (fun m => pyLower m ∈ sv)) = true
    · have hex : ∃ m ∈ p.2, (pyLower m ∈ sv) := by
        simpa using List.any_eq_true.1 hq
      rcases hex with ⟨m, hm2, hm3⟩
      have hmem : m ∈ p.2.filter (fun m => pyLower m ∈ sv) :=
        List.mem_filter.2 ⟨hm2, by simpa using hm3⟩
      have hpos : 0 < (p.2.filter (fun m => pyLower m ∈ sv)).length :=
        List.length_pos.2 (List.ne_nil_of_mem hmem)
      have hone : (p.2.filter (fun m => pyLower m ∈ sv)).length = 1 := by
        have := h1 p (List.mem_cons_self p tl)
        omega
      have hnotmem : p.1 ∉ (tl.filter (fun q =>
          q.2.any (fun m => pyLower m ∈ sv))).map (·.1) := by
        intro hmm
        rcases List.mem_map.1 hmm with ⟨q, hq2, hq1⟩
        exact (List.nodup_cons.1 hnd2).1
          (List.mem_map.2 ⟨q, (List.mem_filter.1 hq2).1, hq1⟩)
      rw [if_pos hq, List.map_cons, List.dedup_cons_of_not_mem hnotmem,
        List.length_cons, hone, ihr]
      omega
    · have hnil : p.2.filter (fun m => pyLower m ∈ sv) = [] := by
        rw [List.filter_eq_nil_iff]
        intro m hm2 hm3
        exact hq (List.any_eq_true.2 ⟨m, hm2, hm3⟩)
      rw [if_neg hq, hnil, ihr]
      simp

/-- C1 counterexample: with the mapping `{die: [died, dies]}` and a
sentence whose tagged verbs are `died` and `dies`, exactly one distinct
lemma matches, yet the many-to-many strategy emits two records for that
sentence (one per matching `(lemma, token)` pair, not one per lemma). -/
theorem n2n_two_records_for_one_lemma :
    spec_matchingLemmas [("die", ["died", "dies"])]
        [("died", "VVD", "die"), ("dies", "VVZ", "die")] = ["die"] ∧
    (ManyToManyExtractor.sentenceRecords [("die", ["died", "dies"])] "u" "died dies"
        [("died", "VVD", "die"), ("dies", "VVZ", "die")]).length = 2 := by
  constructor <;> decide

/-- C1 amended: per sentence, the many-to-many strategy emits one record
per `(lemma, match token)` pair whose lowercased token is among the
sentence's lowercased verb tokens; when every lemma entry has at most one
matching token, this is exactly one record per matching lemma. -/
theorem n2n_per_sentence_count (lemma_to_token : LemmaMap) (url sentence : String)
    (tagged : List TaggedToken)
    (hnd : (lemma_to_token.map (·.1)).Nodup)
    (h1 : ∀ p ∈ lemma_to_token,
      (p.2.filter (fun m =>
        pyLower m ∈ (sentenceVerbsRaw tagged).map pyLower)).length ≤ 1) :
    (ManyToManyExtractor.sentenceRecords lemma_to_token url sentence tagged).length =
      (spec_matchingLemmas lemma_to_token tagged).length := by
  simpa only [ManyToManyExtractor.sentenceRecords, spec_matchingLemmas] using
    n2n_count_aux ((sentenceVerbsRaw tagged).map pyLower) url sentence tagged
      lemma_to_token hnd h1

/-- Witness for `n2n_per_sentence_count` at a concrete input. -/
theorem n2n_per_sentence_count_witness :
    (ManyToManyExtractor.sentenceRecords fixLtt "u" "She died."
        (fixTag "She died.")).length =
      (spec_matchingLemmas fixLtt (fixTag "She died.")).length :=
  n2n_per_sentence_count fixLtt "u" "She died." (fixTag "She died.")
    (by decide) (by decide)

/-! ### One-to-one record counts (C3, C10) -/

/-- C3: per sentence, the one-to-one strategy emits zero records when no
known match token occurs among the sentence's verb tokens, and exactly one
record otherwise, attributed to the lemma of one token chosen by
`random.choice` among the matched tokens. -/
theorem oneToOne_per_sentence (choice : List String → String) (avt : List String)
    (ttl : List (String × String)) (url sentence : String) (tagged : List TaggedToken)
    (hc : ∀ l : List String, l ≠ [] → choice l ∈ l) :
    (avt.filter (fun t => t ∈ sentenceVerbsRaw tagged) = [] →
      OneToOneExtractor.sentenceRecords choice avt ttl url sentence tagged = []) ∧
    (avt.filter (fun t => t ∈ sentenceVerbsRaw tagged) ≠ [] →
      ∃ t ∈ avt.filter (fun t => t ∈ sentenceVerbsRaw tagged),
        OneToOneExtractor.sentenceRecords choice avt ttl url sentence tagged =
          [⟨(dictGet ttl t).getD "", sentence, .triples tagged, url⟩]) := by
  constructor
  · intro h
    simp [OneToOneExtractor.sentenceRecords, h]
  · intro h
    refine ⟨choice (avt.filter (fun t => t ∈ sentenceVerbsRaw tagged)), hc _ h, ?_⟩
    simp only [OneToOneExtractor.sentenceRecords]
    rw [if_neg (by simpa [List.isEmpty_iff] using h)]

/-- Witness for `oneToOne_per_sentence` at a concrete input. -/
theorem oneToOne_per_sentence_witness :
    ((["died"] : List String).filter
        (fun t => t ∈ sentenceVerbsRaw (fixTag "She died.")) = [] →
      OneToOneExtractor.sentenceRecords fixChoice ["died"] [("died", "die")] "u"
        "She died." (fixTag "She died.") = []) ∧
    ((["died"] : List String).filter
        (fun t => t ∈ sentenceVerbsRaw (fixTag "She died.")) ≠ [] →
      ∃ t ∈ (["died"] : List String).filter
          (fun t => t ∈ sentenceVerbsRaw (fixTag "She died.")),
        OneToOneExtractor.sentenceRecords fixChoice ["died"] [("died", "die")] "u"
          "She died." (fixTag "She died.") =
          [⟨(dictGet [("died", "die")] t).getD "", "She died.",
            .triples (fixTag "She died."), "u"⟩]) :=
  oneToOne_per_sentence fixChoice ["died"] [("died", "die")] "u" "She died."
    (fixTag "She died.")
    (fun l hl => by
      cases l with
      | nil => exact absurd rfl hl
      | cons a tl => simp [fixChoice])

/-- C10: the one-to-one strategy compares its lowercased match tokens
against the sentence's verb tokens without lowercasing them, so a sentence
whose verb tokens all lie outside the lowercased match-token set produces
no record, even when their lowercase forms are match tokens; the
many-to-many strategy lowercases both sides and does match in that case
(concrete contrast: verb token `Died` against match token `died`). -/
theorem oneToOne_case_sensitive :
    (∀ (choice : List String → String) (ltt : LemmaMap) (url sentence : String)
        (tagged : List TaggedToken),
      (∀ t ∈ sentenceVerbsRaw tagged, t ∉ OneToOneExtractor.all_verb_tokens ltt) →
      OneToOneExtractor.sentenceRecords choice (OneToOneExtractor.all_verb_tokens ltt)
        (OneToOneExtractor.token_to_lemma ltt) url sentence tagged = []) ∧
    OneToOneExtractor.sentenceRecords fixChoice (OneToOneExtractor.all_verb_tokens fixLtt)
      (OneToOneExtractor.token_to_lemma fixLtt) "u" "Died here."
      (fixTag "Died here.") = [] ∧
    (ManyToManyExtractor.sentenceRecords fixLtt "u" "Died here."
      (fixTag "Died here.")).length = 1 := by
  refine ⟨?_, by decide, by decide⟩
  intro choice ltt url sentence tagged h
  have hnil : (OneToOneExtractor.all_verb_tokens ltt).filter
      (fun t => t ∈ sentenceVerbsRaw tagged) = [] := by
    rw [List.filter_eq_nil_iff]
    intro t ht hmem
    exact (h t (by simpa using hmem)) ht
  simp [OneToOneExtractor.sentenceRecords, hnil]

/-- Witness for `oneToOne_case_sensitive` at its concrete contrast. -/
theorem oneToOne_case_sensitive_witness :
    OneToOneExtractor.sentenceRecords fixChoice (OneToOneExtractor.all_verb_tokens fixLtt)
      (OneToOneExtractor.token_to_lemma fixLtt) "u" "Died here."
      (fixTag "Died here.") = [] :=
  oneToOne_case_sensitive.1 fixChoice fixLtt "u" "Died here." (fixTag "Died here.")
    (by decide)

/-! ### List documents across the strategies (C2) -/

/-- C2 (code bug in the syntactic strategy): on an item whose document is
a list of paragraphs, the 121, n2n and grammar strategies join the
paragraphs with newlines and extract exactly what they extract from the
joined string, while the syntactic strategy raises an `AttributeError`
(`item.get(key, '').lower()` on a list); the same item with the joined
string document is processed by the syntactic strategy without error. -/
theorem syntactic_list_document_crash :
    SyntacticExtractor.extract_from_item fixSplit fixParse fixLtt itemL =
      .error "AttributeError: list object has no attribute lower" ∧
    SyntacticExtractor.extract_from_item fixSplit fixParse fixLtt itemS = .ok none ∧
    (ManyToManyExtractor.extract_from_item fixSplit fixTag fixLtt itemL).map (·.2) =
      some [⟨"die", "She died.", .triples (fixTag "She died."), "http://u"⟩] ∧
    (ManyToManyExtractor.extract_from_item fixSplit fixTag fixLtt itemL).map (·.2) =
      (ManyToManyExtractor.extract_from_item fixSplit fixTag fixLtt itemS).map (·.2) ∧
    (OneToOneExtractor.extract_from_item fixSplit fixTag fixChoice fixLtt itemL).map (·.2) =
      (OneToOneExtractor.extract_from_item fixSplit fixTag fixChoice fixLtt itemS).map (·.2) ∧
    (GrammarExtractor.extract_from_item fixSplit fixTag fixChunker fixLtt itemL).map (·.2) =
      (GrammarExtractor.extract_from_item fixSplit fixTag fixChunker fixLtt itemS).map (·.2) := by
  refine ⟨by decide, by decide, by decide, by decide, by decide, by decide⟩

/-! ### Strategy dispatch (C8) and grammar language gate (C9) -/

/-- C8: `extract_sentences` raises a `ValueError`, yielding no records,
for any strategy name outside the closed set
`\x7b121, n2n, grammar, syntactic\x7d`, and instantiates the corresponding
extractor for each name inside the set. -/
theorem extract_sentences_dispatch (c : Collaborators) (language : String)
    (lemma_to_tokens : LemmaMap) (mbf : Bool) (corpus : List Item) (strategy : String)
    (hs : strategy ∉ (["121", "n2n", "grammar", "syntactic"] : List String)) :
    extract_sentences c language lemma_to_tokens strategy mbf corpus =
      .error "Malformed or unsupported extraction strategy: please use one of 121, n2n, grammar, or syntactic" ∧
    extract_sentences c language lemma_to_tokens "n2n" mbf corpus =
      .ok (SentenceExtractor_extract (fun it =>
        .ok (ManyToManyExtractor.extract_from_item c.split c.tag
          (if mbf then lemma_to_tokens else filter_base_form lemma_to_tokens) it)) corpus) ∧
    extract_sentences c language lemma_to_tokens "121" mbf corpus =
      .ok (SentenceExtractor_extract (fun it =>
        .ok (OneToOneExtractor.extract_from_item c.split c.tag c.choice
          (if mbf then lemma_to_tokens else filter_base_form lemma_to_tokens) it)) corpus) ∧
    extract_sentences c language lemma_to_tokens "syntactic" mbf corpus =
      .ok (SentenceExtractor_extract
        (SyntacticExtractor.extract_from_item c.split c.parse
          (if mbf then lemma_to_tokens else filter_base_form lemma_to_tokens)) corpus) ∧
    extract_sentences c language lemma_to_tokens "grammar" mbf corpus =
      (match GrammarExtractor.setup_grammar language with
       | .error e => .ok ([], some e)
       | .ok _ =>
         .ok (SentenceExtractor_extract (fun it =>
           .ok (GrammarExtractor.extract_from_item c.split c.tag c.chunker
             (if mbf then lemma_to_tokens else filter_base_form lemma_to_tokens) it)) corpus)) := by
  refine ⟨?_, by simp [extract_sentences], by simp [extract_sentences],
    by simp [extract_sentences], by simp [extract_sentences]⟩
  simp only [List.mem_cons, List.not_mem_nil, or_false, not_or] at hs
  obtain ⟨h121, hn2n, hgr, hsyn⟩ := hs
  simp [extract_sentences, h121, hn2n, hgr, hsyn]

/-- Witness for `extract_sentences_dispatch` at the strategy name
`bogus`. -/
theorem extract_sentences_dispatch_witness :
    extract_sentences ⟨fixSplit, fixTag, fixChoice, fixParse, fixChunker⟩ "en" fixLtt
        "bogus" true [] =
      .error "Malformed or unsupported extraction strategy: please use one of 121, n2n, grammar, or syntactic" :=
  (extract_sentences_dispatch ⟨fixSplit, fixTag, fixChoice, fixParse, fixChunker⟩ "en"
    fixLtt true [] "bogus" (by decide)).1

/-- C9: the grammar strategy fails during setup, before any corpus item is
processed and with no records emitted, for every language outside the
fixed table \x7ben, it\x7d, whatever the corpus; for both supported
languages setup succeeds and the run proceeds over the corpus. -/
theorem grammar_language_gate (c : Collaborators) (language : String)
    (lemma_to_tokens : LemmaMap) (mbf : Bool) (corpus : List Item)
    (hl : language ≠ "en" ∧ language ≠ "it") :
    extract_sentences c language lemma_to_tokens "grammar" mbf corpus =
      .ok ([], some ("Invalid or unsupported language: " ++ language)) ∧
    (∀ language2, language2 = "en" ∨ language2 = "it" →
      ∃ g, GrammarExtractor.setup_grammar language2 = .ok g ∧
        extract_sentences c language2 lemma_to_tokens "grammar" mbf corpus =
          .ok (SentenceExtractor_extract (fun it =>
            .ok (GrammarExtractor.extract_from_item c.split c.tag c.chunker
              (if mbf then lemma_to_tokens else filter_base_form lemma_to_tokens) it))
            corpus)) := by
  constructor
  · have he : ("en" == language) = false := by
      simp only [beq_eq_false_iff_ne, ne_eq]
      exact fun h => hl.1 h.symm
    have hi : ("it" == language) = false := by
      simp only [beq_eq_false_iff_ne, ne_eq]
      exact fun h => hl.2 h.symm
    have hsetup : GrammarExtractor.setup_grammar language =
        .error ("Invalid or unsupported language: " ++ language) := by
      simp [GrammarExtractor.setup_grammar, dictGet, GrammarExtractor.grammars,
        List.find?, he, hi]
    simp [extract_sentences, hsetup]
  · rintro language2 (rfl | rfl)
    · have hs2 : GrammarExtractor.setup_grammar "en" = .ok GrammarExtractor.grammar_en := by
        decide
      exact ⟨GrammarExtractor.grammar_en, hs2, by simp [extract_sentences, hs2]⟩
    · have hs2 : GrammarExtractor.setup_grammar "it" = .ok GrammarExtractor.grammar_it := by
        decide
      exact ⟨GrammarExtractor.grammar_it, hs2, by simp [extract_sentences, hs2]⟩

/-- Witness for `grammar_language_gate` at the language code `fr`. -/
theorem grammar_language_gate_witness :
    extract_sentences ⟨fixSplit, fixTag, fixChoice, fixParse, fixChunker⟩ "fr" fixLtt
        "grammar" true [itemS] =
      .ok ([], some ("Invalid or unsupported language: " ++ "fr")) :=
  (grammar_language_gate ⟨fixSplit, fixTag, fixChoice, fixParse, fixChunker⟩ "fr"
    fixLtt true [itemS] (by decide)).1

/-! ### Every emitted lu is a key of the mapping (C6) -/

theorem keys_filter_base_form (l : LemmaMap) :
    (filter_base_form l).map (·.1) = l.map (·.1) := by
  simp [filter_base_form]

theorem keys_lowered (l : LemmaMap) :
    (GrammarExtractor.lowered l).map (·.1) = l.map (·.1) := by
  simp [GrammarExtractor.lowered]

theorem dictGet_mem (d : List (String × String)) (k : String)
    (hk : k ∈ d.map (·.1)) : ∃ v, dictGet d k = some v ∧ (k, v) ∈ d := by
  have h2 : ∃ x, x ∈ d.reverse ∧ (x.1 == k) = true := by
    rcases List.mem_map.1 hk with ⟨p, hp, hp1⟩
    exact ⟨p, List.mem_reverse.2 hp, by simp [hp1]⟩
  rcases Option.isSome_iff_exists.1 (List.find?_isSome.2 h2) with ⟨pr, hpr⟩
  have hpk : pr.1 = k := by simpa using List.find?_some hpr
  have hmem : pr ∈ d := List.mem_reverse.1 (List.mem_of_find?_eq_some hpr)
  refine ⟨pr.2, by simp [dictGet, hpr], ?_⟩
  rw [← hpk]
  simpa using hmem

theorem mem_emitFromItem (nm u : String) :
    ∀ (c : Nat) (es : List ExtractedSentence) (r : OutputRecord),
      r ∈ emitFromItem c nm u es → ∃ e ∈ es, r.lu = e.lu
  | _, [], r => by simp [emitFromItem]
  | c, e :: es, r => by
    intro hr
    rcases List.mem_cons.1 hr with h | h
    · exact ⟨e, List.mem_cons_self e es, by rw [h]⟩
    · rcases mem_emitFromItem nm u (c + 1) es r h with ⟨e2, he2, hlu⟩
      exact ⟨e2, List.mem_cons_of_mem e he2, hlu⟩

theorem extractLoop_lu (K : List String) (rs : List ItemResult) : ∀ cnt : Nat,
    (∀ item ext, Except.ok (some (item, ext)) ∈ rs → ∀ e ∈ ext, e.lu ∈ K) →
    ∀ r ∈ (extractLoop cnt rs).1, r.lu ∈ K := by
  induction rs with
  | nil => intro cnt _ r hr; simp [extractLoop] at hr
  | cons hd rest ih =>
    intro cnt hall r hr
    match hd with
    | .error e => simp [extractLoop] at hr
    | .ok none =>
      exact ih cnt (fun i2 e2 hm => hall i2 e2 (List.mem_cons_of_mem _ hm)) r
        (by simpa [extractLoop] using hr)
    | .ok (some (item, ext)) =>
      rcases hn : truthyStr item.name with _ | nm
      · exact ih cnt (fun i2 e2 hm => hall i2 e2 (List.mem_cons_of_mem _ hm)) r
          (by simpa [extractLoop, hn] using hr)
      · rcases hu : truthyStr item.url with _ | u
        · exact ih cnt (fun i2 e2 hm => hall i2 e2 (List.mem_cons_of_mem _ hm)) r
            (by simpa [extractLoop, hn, hu] using hr)
        · rw [show (extractLoop cnt (Except.ok (some (item, ext)) :: rest)).1 =
              emitFromItem cnt nm u ext ++ (extractLoop (cnt + ext.length) rest).1 from by
            simp [extractLoop, hn, hu]] at hr
          rcases List.mem_append.1 hr with h | h
          · rcases mem_emitFromItem nm u cnt ext r h with ⟨e2, he2, hlu⟩
            rw [hlu]
            exact hall item ext (List.mem_cons_self _ _) e2 he2
          · exact ih (cnt + ext.length)
              (fun i2 e2 hm => hall i2 e2 (List.mem_cons_of_mem _ hm)) r h

theorem n2n_sentenceRecords_lu (ltt : LemmaMap) (url s : String)
    (tagged : List TaggedToken) :
    ∀ e ∈ ManyToManyExtractor.sentenceRecords ltt url s tagged,
      e.lu ∈ ltt.map (·.1) := by
  intro e he
  simp only [ManyToManyExtractor.sentenceRecords] at he
  rcases List.mem_flatMap.1 he with ⟨p, hp, he2⟩
  rcases List.mem_filterMap.1 he2 with ⟨m, _, hme⟩
  by_cases hcd : pyLower m ∈ (sentenceVerbsRaw tagged).map pyLower
  · rw [if_pos hcd] at hme
    have : e = ⟨p.1, s, .triples tagged, url⟩ := (Option.some.inj hme).symm
    rw [this]
    exact List.mem_map.2 ⟨p, hp, rfl⟩
  · rw [if_neg hcd] at hme
    cases hme

theorem oneToOne_sentenceRecords_lu (choice : List String → String) (ltt : LemmaMap)
    (url s : String) (tagged : List TaggedToken)
    (hc : ∀ l : List String, l ≠ [] → choice l ∈ l) :
    ∀ e ∈ OneToOneExtractor.sentenceRecords choice (OneToOneExtractor.all_verb_tokens ltt)
        (OneToOneExtractor.token_to_lemma ltt) url s tagged,
      e.lu ∈ ltt.map (·.1) := by
  intro e he
  simp only [OneToOneExtractor.sentenceRecords] at he
  by_cases hie : ((OneToOneExtractor.all_verb_tokens ltt).filter
      (fun t => t ∈ sentenceVerbsRaw tagged)).isEmpty
  · rw [if_pos hie] at he
    cases he
  · rw [if_neg hie] at he
    have he2 : e = ⟨(dictGet (OneToOneExtractor.token_to_lemma ltt)
        (choice ((OneToOneExtractor.all_verb_tokens ltt).filter
          (fun t => t ∈ sentenceVerbsRaw tagged)))).getD "", s, .triples tagged, url⟩ := by
      simpa using he
    have hne : (OneToOneExtractor.all_verb_tokens ltt).filter
        (fun t => t ∈ sentenceVerbsRaw tagged) ≠ [] := by
      simpa [List.isEmpty_iff] using hie
    have hin_avt : choice ((OneToOneExtractor.all_verb_tokens ltt).filter
        (fun t => t ∈ sentenceVerbsRaw tagged)) ∈ OneToOneExtractor.all_verb_tokens ltt :=
      (List.mem_filter.1 (hc _ hne)).1
    have hkeys : choice ((OneToOneExtractor.all_verb_tokens ltt).filter
        (fun t => t ∈ sentenceVerbsRaw tagged)) ∈
          (OneToOneExtractor.token_to_lemma ltt).map (·.1) := by
      have hflat : choice ((OneToOneExtractor.all_verb_tokens ltt).filter
          (fun t => t ∈ sentenceVerbsRaw tagged)) ∈
            ltt.flatMap (fun p => p.2.map pyLower) := by
        simpa [OneToOneExtractor.all_verb_tokens, List.mem_dedup] using hin_avt
      simpa [OneToOneExtractor.token_to_lemma, List.map_flatMap, List.map_map,
        Function.comp] using hflat
    rcases dictGet_mem _ _ hkeys with ⟨v, hv, hmemd⟩
    simp only [OneToOneExtractor.token_to_lemma] at hmemd
    rcases List.mem_flatMap.1 hmemd with ⟨p, hp, hpm⟩
    rcases List.mem_map.1 hpm with ⟨m, _, hme⟩
    have hv2 : p.1 = v := congrArg Prod.snd hme
    rw [he2]
    show (dictGet _ _).getD "" ∈ _
    rw [hv, Option.getD_some, ← hv2]
    exact List.mem_map.2 ⟨p, hp, rfl⟩

theorem syntactic_subRecords_lu (ltt : LemmaMap) (url : String) (sub : PTree) :
    ∀ e ∈ SyntacticExtractor.subRecords (SyntacticExtractor.all_verbs ltt)
        (SyntacticExtractor.token_to_lemma ltt) url sub,
      e.lu ∈ ltt.map (·.1) := by
  intro e he
  rcases hf : (((SyntacticExtractor.find_terminals (some "V") sub).map (·.2)).dedup).filter
      (fun v => v ∈ SyntacticExtractor.all_verbs ltt) with _ | ⟨v, _ | ⟨w, tl2⟩⟩ <;>
    simp only [SyntacticExtractor.subRecords, hf] at he
  · cases he
  · have he2 : e = ⟨(dictGet (SyntacticExtractor.token_to_lemma ltt) v).getD "",
        String.intercalate " " ((SyntacticExtractor.find_terminals none sub).map (·.2)),
        .noTag, url⟩ := by
      simpa using he
    have hvf : v ∈ (((SyntacticExtractor.find_terminals (some "V") sub).map (·.2)).dedup).filter
        (fun v => v ∈ SyntacticExtractor.all_verbs ltt) := by
      rw [hf]
      exact List.mem_singleton_self v
    have hva : v ∈ SyntacticExtractor.all_verbs ltt := by
      simpa using (List.mem_filter.1 hvf).2
    have hkeys : v ∈ (SyntacticExtractor.token_to_lemma ltt).map (·.1) := by
      simpa [SyntacticExtractor.all_verbs, List.mem_dedup] using hva
    rcases dictGet_mem _ _ hkeys with ⟨v2, hv, hmemd⟩
    simp only [SyntacticExtractor.token_to_lemma] at hmemd
    rcases List.mem_flatMap.1 hmemd with ⟨p, hp, hpm⟩
    rcases List.mem_map.1 hpm with ⟨m, _, hme⟩
    have hv2 : p.1 = v2 := congrArg Prod.snd hme
    rw [he2]
    show (dictGet _ _).getD "" ∈ _
    rw [hv, Option.getD_some, ← hv2]
    exact List.mem_map.2 ⟨p, hp, rfl⟩
  · cases he

theorem grammar_sentenceRecords_lu
    (chunker : List (String × String) → List (List (String × String)))
    (ltt : LemmaMap) (url s : String) (tagged : List (String × String)) :
    ∀ e ∈ GrammarExtractor.sentenceRecords chunker (GrammarExtractor.lowered ltt)
        url s tagged,
      e.lu ∈ ltt.map (·.1) := by
  intro e he
  simp only [GrammarExtractor.sentenceRecords] at he
  rcases List.mem_flatMap.1 he with ⟨gm, _, he2⟩
  rcases List.mem_flatMap.1 he2 with ⟨tp, _, he3⟩
  by_cases hV : startswith "V" tp.2 = true
  · rw [if_pos hV] at he3
    rcases List.mem_filterMap.1 he3 with ⟨p, hp, hpe⟩
    by_cases hcd : pyLower tp.1 ∈ p.2
    · rw [if_pos hcd] at hpe
      have : e = ⟨p.1, String.intercalate " " (gm.map (·.1)), .pairs tagged, url⟩ :=
        (Option.some.inj hpe).symm
      rw [this]
      show p.1 ∈ ltt.map (·.1)
      rw [← keys_lowered ltt]
      exact List.mem_map.2 ⟨p, hp, rfl⟩
    · rw [if_neg hcd] at hpe
      cases hpe
  · rw [if_neg hV] at he3
    cases he3

theorem n2n_item_lu (split : String → List String) (tag : String → List TaggedToken)
    (ltt : LemmaMap) (item it : Item) (ext : List ExtractedSentence)
    (h : ManyToManyExtractor.extract_from_item split tag ltt item = some (it, ext)) :
    ∀ e ∈ ext, e.lu ∈ ltt.map (·.1) := by
  intro e he
  unfold ManyToManyExtractor.extract_from_item at h
  rcases hdoc : item.document with _ | d
  · simp [hdoc] at h
  · rcases hurl : truthyStr item.url with _ | url
    · simp [hdoc, hurl] at h
    · simp only [hdoc, hurl] at h
      by_cases htr : d.truthy
      · rw [if_pos htr] at h
        by_cases hie : ((split d.joined).flatMap (fun s =>
            ManyToManyExtractor.sentenceRecords ltt url s (tag s))).isEmpty
        · simp only [hie, if_pos] at h
          cases h
        · rw [if_neg hie] at h
          have h2 := Option.some.inj h
          rw [Prod.mk.injEq] at h2
          obtain ⟨-, rfl⟩ := h2
          rcases List.mem_flatMap.1 he with ⟨s2, _, he2⟩
          exact n2n_sentenceRecords_lu ltt url s2 (tag s2) e he2
      · simp [htr] at h

theorem oneToOne_item_lu (split : String → List String)
    (tag : String → List TaggedToken) (choice : List String → String)
    (ltt : LemmaMap) (item it : Item) (ext : List ExtractedSentence)
    (hc : ∀ l : List String, l ≠ [] → choice l ∈ l)
    (h : OneToOneExtractor.extract_from_item split tag choice ltt item = some (it, ext)) :
    ∀ e ∈ ext, e.lu ∈ ltt.map (·.1) := by
  intro e he
  unfold OneToOneExtractor.extract_from_item at h
  rcases hurl : truthyStr item.url with _ | url
  · simp [hurl] at h
  · rcases hdoc : item.document with _ | d
    · simp [hurl, hdoc] at h
    · simp only [hurl, hdoc] at h
      by_cases htr : d.truthy
      · rw [if_pos htr] at h
        by_cases hie : ((split d.joined).flatMap (fun s =>
            OneToOneExtractor.sentenceRecords choice (OneToOneExtractor.all_verb_tokens ltt)
              (OneToOneExtractor.token_to_lemma ltt) url s (tag s))).isEmpty
        · simp only [hie, if_pos] at h
          cases h
        · rw [if_neg hie] at h
          have h2 := Option.some.inj h
          rw [Prod.mk.injEq] at h2
          obtain ⟨-, rfl⟩ := h2
          rcases List.mem_flatMap.1 he with ⟨s2, _, he2⟩
          exact oneToOne_sentenceRecords_lu choice ltt url s2 (tag s2) hc e he2
      · simp [htr] at h

theorem grammar_item_lu (split : String → List String)
    (tag : String → List TaggedToken)
    (chunker : List (String × String) → List (List (String × String)))
    (ltt : LemmaMap) (item it : Item) (ext : List ExtractedSentence)
    (h : GrammarExtractor.extract_from_item split tag chunker ltt item = some (it, ext)) :
    ∀ e ∈ ext, e.lu ∈ ltt.map (·.1) := by
  intro e he
  unfold GrammarExtractor.extract_from_item at h
  rcases hurl : truthyStr item.url with _ | url
  · simp [hurl] at h
  · rcases hdoc : item.document with _ | d
    · simp [hurl, hdoc] at h
    · simp only [hurl, hdoc] at h
      by_cases htr : d.truthy
      · rw [if_pos htr] at h
        by_cases hie : ((split d.joined).flatMap (fun s =>
            GrammarExtractor.sentenceRecords chunker (GrammarExtractor.lowered ltt)
              url s ((tag s).map (fun t => (t.1, t.2.1))))).isEmpty
        · simp only [hie, if_pos] at h
          cases h
        · rw [if_neg hie] at h
          have h2 := Option.some.inj h
          rw [Prod.mk.injEq] at h2
          obtain ⟨-, rfl⟩ := h2
          rcases List.mem_flatMap.1 he with ⟨s2, _, he2⟩
          exact grammar_sentenceRecords_lu chunker ltt url s2 _ e he2
      · simp [htr] at h

theorem syntactic_item_lu (split : String → List String)
    (parse : List String → Except Unit (List PTree)) (ltt : LemmaMap)
    (item it : Item) (ext : List ExtractedSentence)
    (h : SyntacticExtractor.extract_from_item split parse ltt item =
      .ok (some (it, ext))) :
    ∀ e ∈ ext, e.lu ∈ ltt.map (·.1) := by
  intro e he
  unfold SyntacticExtractor.extract_from_item at h
  rcases hdl : SyntacticExtractor.docLower item.document with edl | bio
  · simp [hdl, Except.bind, bind] at h
  · simp only [hdl, Except.bind, bind] at h
    rcases hurl : truthyStr item.url with _ | url
    · simp [hurl, pure, Except.pure] at h
    · simp only [hurl] at h
      by_cases hbio : bio = ""
      · simp [hbio, pure, Except.pure] at h
      · rw [if_neg hbio] at h
        rcases hp : parse (split bio) with e2 | roots
        · simp [hp, pure, Except.pure] at h
        · simp only [hp] at h
          by_cases hie : (roots.flatMap (fun root =>
              (SyntacticExtractor.find_sub_sentences root).flatMap
                (SyntacticExtractor.subRecords (SyntacticExtractor.all_verbs ltt)
                  (SyntacticExtractor.token_to_lemma ltt) url))).isEmpty
          · simp only [hie, if_pos] at h
            cases h
          · rw [if_neg hie] at h
            have h2 := Option.some.inj (Except.ok.inj h)
            rw [Prod.mk.injEq] at h2
            obtain ⟨-, rfl⟩ := h2
            rcases List.mem_flatMap.1 he with ⟨root, _, he2⟩
            rcases List.mem_flatMap.1 he2 with ⟨sub, _, he3⟩
            exact syntactic_subRecords_lu ltt url sub e he3

/-- C6: whenever `extract_sentences` runs (any supported strategy), the
`lu` field of every emitted record is a key of the input lemma-to-token
mapping. -/
theorem emitted_lu_mem_keys (c : Collaborators) (language : String)
    (lemma_to_tokens : LemmaMap) (strategy : String) (mbf : Bool)
    (corpus : List Item) (out : List OutputRecord) (err : Option String)
    (hc : ∀ l : List String, l ≠ [] → c.choice l ∈ l)
    (hout : extract_sentences c language lemma_to_tokens strategy mbf corpus =
      .ok (out, err)) :
    ∀ r ∈ out, r.lu ∈ lemma_to_tokens.map (·.1) := by
  have hkeys : ((if mbf then lemma_to_tokens else filter_base_form lemma_to_tokens).map
      (fun x => x.1)) = lemma_to_tokens.map (fun x => x.1) := by
    cases mbf <;> simp [keys_filter_base_form]
  simp only [extract_sentences] at hout
  by_cases h1 : strategy = "n2n"
  · rw [if_pos h1] at hout
    have hrun := Except.ok.inj hout
    intro r hr
    have hr2 : r ∈ (SentenceExtractor_extract (fun it =>
        .ok (ManyToManyExtractor.extract_from_item c.split c.tag
          (if mbf then lemma_to_tokens else filter_base_form lemma_to_tokens) it))
          corpus).1 := by
      rw [hrun]; exact hr
    rw [show lemma_to_tokens.map (·.1) =
        (if mbf then lemma_to_tokens else filter_base_form lemma_to_tokens).map
          (fun x => x.1) from hkeys.symm]
    refine extractLoop_lu _ _ 0 ?_ r hr2
    intro item ext hmm e he
    rcases List.mem_map.1 hmm with ⟨it0, _, hf⟩
    exact n2n_item_lu _ _ _ _ _ _ (Except.ok.inj hf) e he
  · rw [if_neg h1] at hout
    by_cases h2 : strategy = "121"
    · rw [if_pos h2] at hout
      have hrun := Except.ok.inj hout
      intro r hr
      have hr2 : r ∈ (SentenceExtractor_extract (fun it =>
          .ok (OneToOneExtractor.extract_from_item c.split c.tag c.choice
            (if mbf then lemma_to_tokens else filter_base_form lemma_to_tokens) it))
            corpus).1 := by
        rw [hrun]; exact hr
      rw [show lemma_to_tokens.map (·.1) =
          (if mbf then lemma_to_tokens else filter_base_form lemma_to_tokens).map
            (fun x => x.1) from hkeys.symm]
      refine extractLoop_lu _ _ 0 ?_ r hr2
      intro item ext hmm e he
      rcases List.mem_map.1 hmm with ⟨it0, _, hf⟩
      exact oneToOne_item_lu _ _ _ _ _ _ _ hc (Except.ok.inj hf) e he
    · rw [if_neg h2] at hout
      by_cases h3 : strategy = "grammar"
      · rw [if_pos h3] at hout
        rcases hsg : GrammarExtractor.setup_grammar language with e2 | g <;>
          rw [hsg] at hout
        · have h4 := Except.ok.inj hout
          rw [Prod.mk.injEq] at h4
          obtain ⟨hout2, -⟩ := h4
          intro r hr
          rw [← hout2] at hr
          cases hr
        · have hrun := Except.ok.inj hout
          intro r hr
          have hr2 : r ∈ (SentenceExtractor_extract (fun it =>
              .ok (GrammarExtractor.extract_from_item c.split c.tag c.chunker
                (if mbf then lemma_to_tokens else filter_base_form lemma_to_tokens) it))
                corpus).1 := by
            rw [hrun]; exact hr
          rw [show lemma_to_tokens.map (·.1) =
              (if mbf then lemma_to_tokens else filter_base_form lemma_to_tokens).map
                (fun x => x.1) from hkeys.symm]
          refine extractLoop_lu _ _ 0 ?_ r hr2
          intro item ext hmm e he
          rcases List.mem_map.1 hmm with ⟨it0, _, hf⟩
          exact grammar_item_lu _ _ _ _ _ _ _ (Except.ok.inj hf) e he
      · rw [if_neg h3] at hout
        by_cases h4 : strategy = "syntactic"
        · rw [if_pos h4] at hout
          have hrun := Except.ok.inj hout
          intro r hr
          have hr2 : r ∈ (SentenceExtractor_extract
              (SyntacticExtractor.extract_from_item c.split c.parse
                (if mbf then lemma_to_tokens else filter_base_form lemma_to_tokens))
                corpus).1 := by
            rw [hrun]; exact hr
          rw [show lemma_to_tokens.map (·.1) =
              (if mbf then lemma_to_tokens else filter_base_form lemma_to_tokens).map
                (fun x => x.1) from hkeys.symm]
          refine extractLoop_lu _ _ 0 ?_ r hr2
          intro item ext hmm e he
          rcases List.mem_map.1 hmm with ⟨it0, _, hf⟩
          exact syntactic_item_lu _ _ _ _ _ _ hf e he
        · rw [if_neg h4] at hout
          cases hout

/-- Witness for `emitted_lu_mem_keys` on a concrete n2n run. -/
theorem emitted_lu_mem_keys_witness :
    (⟨0, "X", "http://u", "die", "She died.",
        .triples [("She", "PP", "she"), ("died", "VVD", "die")]⟩ : OutputRecord).lu ∈
      fixLtt.map (·.1) :=
  emitted_lu_mem_keys ⟨fixSplit, fixTag, fixChoice, fixParse, fixChunker⟩ "en" fixLtt
    "n2n" true [itemS]
    [⟨0, "X", "http://u", "die", "She died.",
      .triples [("She", "PP", "she"), ("died", "VVD", "die")]⟩] none
    (fun l hl => by
      cases l with
      | nil => exact absurd rfl hl
      | cons a tl => simp [fixChoice])
    (by decide)
    ⟨0, "X", "http://u", "die", "She died.",
      .triples [("She", "PP", "she"), ("died", "VVD", "die")]⟩
    (List.mem_singleton_self _)
